import Mathlib

/-!
Verification of the iceberk `classifier.py` module (losses, regularizers,
the distributed multiclass solver `SolverMC`, and the stochastic Adagrad
driver) against its natural-language specification.

Conventions of the shallow embedding:
* numpy arrays of shape (n, K) are total functions `ℕ → ℕ → ℚ`; only the
  entries with index below the stated bounds are meaningful, and array sums
  are finite sums over `Finset.range`.  Exact rational arithmetic stands in
  for float64 arithmetic.
* `np.exp`, `np.log` and `np.sqrt` are opaque in the properties we verify,
  so they are passed as abstract function parameters `E L sq : ℚ → ℚ`.
* an optional per-example weight vector is `Option (ℕ → ℚ)`; the code's
  `if weight is None` test becomes a `match`.
* in-place numpy updates (`gpred[:] = pred; gpred -= Y; ...`) are
  translated step by step into `let`-bound intermediate arrays; the value
  returned for the gradient buffer is the buffer's final contents.
-/

/-- A numpy 2-d float array, as a total function on indices. -/
abbrev Mat : Type := ℕ → ℕ → ℚ

/-- Sum of `f i j` over the `n × K` index range: models `A.sum()` /
`np.dot(A.flat, B.flat)`-style whole-array reductions for shape-(n,K)
arrays. -/
def msum (n K : ℕ) (f : Mat) : ℚ :=
  (Finset.range n).sum fun i => (Finset.range K).sum fun j => f i j

/-- `row.max()` over the first `K` entries of a row, modelling
`pred.max(axis=1)` for one row (numpy requires `K ≥ 1`; for `K = 0` this
returns `row 0`, an arbitrary value). -/
def rowMax (K : ℕ) (row : ℕ → ℚ) : ℚ :=
  (List.range K).foldl (fun m j => max m (row j)) (row 0)

namespace Loss

/-- Translation of `Loss.loss_l2` (classifier.py lines 422-432):
`diff = pred - Y`; unweighted: `f = np.dot(diff.flat, diff.flat)`,
`g = 2.*diff`; weighted: `f = np.dot((diff**2).sum(1), weight)`,
`g = 2.*diff*weight[:,np.newaxis]`. -/
def loss_l2 (n K : ℕ) (Y pred : Mat) (weight : Option (ℕ → ℚ)) : ℚ × Mat :=
  let diff : Mat := fun i j => pred i j - Y i j
  match weight with
  | none =>
      (msum n K fun i j => diff i j * diff i j, fun i j => 2 * diff i j)
  | some w =>
      ((Finset.range n).sum fun i => ((Finset.range K).sum fun j => diff i j ^ 2) * w i,
       fun i j => 2 * diff i j * w i)

/-- Translation of `Loss.loss_hinge` (classifier.py lines 434-445):
`margin = np.maximum(0., 1. - Y * pred)`; unweighted: `f = margin.sum()`,
`g = -Y * (margin > 0)`; weighted: `f = np.dot(weight, margin).sum()`,
`g = -Y * weight[:,np.newaxis] * (margin > 0)`.  The boolean array
`(margin > 0)` becomes a 0/1 indicator. -/
def loss_hinge (n K : ℕ) (Y pred : Mat) (weight : Option (ℕ → ℚ)) : ℚ × Mat :=
  let margin : Mat := fun i j => max 0 (1 - Y i j * pred i j)
  match weight with
  | none =>
      (msum n K margin,
       fun i j => -Y i j * (if 0 < margin i j then 1 else 0))
  | some w =>
      ((Finset.range K).sum fun j => (Finset.range n).sum fun i => w i * margin i j,
       fun i j => -Y i j * w i * (if 0 < margin i j then 1 else 0))

/-- Translation of `Loss.loss_squared_hinge` (classifier.py lines 447-456):
`margin = np.maximum(0., 1. - Y * pred)`; unweighted:
`f = np.dot(margin.flat, margin.flat)`, `g = -2. * Y * margin`; weighted:
`wm = weight[:,np.newaxis] * margin`, `f = np.dot(wm.flat, margin.flat)`,
`g = -2. * Y * wm`. -/
def loss_squared_hinge (n K : ℕ) (Y pred : Mat) (weight : Option (ℕ → ℚ)) : ℚ × Mat :=
  let margin : Mat := fun i j => max 0 (1 - Y i j * pred i j)
  match weight with
  | none =>
      (msum n K (fun i j => margin i j * margin i j),
       fun i j => -2 * Y i j * margin i j)
  | some w =>
      let wm : Mat := fun i j => w i * margin i j
      (msum n K (fun i j => wm i j * margin i j),
       fun i j => -2 * Y i j * wm i j)

/-- Translation of `Loss.loss_multiclass_logistic` (classifier.py lines
472-485), with `np.exp` and `np.log` abstracted as `E` and `L`:
`prob = pred - pred.max(axis=1)[:,np.newaxis]`; `prob = exp(prob)`;
`prob /= prob.sum(axis=1)[:,np.newaxis]`; `g = prob - Y`;
`f = -np.dot(log(prob).flat, Y.flat)`.  The `weight` argument is accepted
but never used, exactly as in the source. -/
def loss_multiclass_logistic (E L : ℚ → ℚ) (n K : ℕ) (Y pred : Mat)
    (weight : Option (ℕ → ℚ)) : ℚ × Mat :=
  let shifted : Mat := fun i j => pred i j - rowMax K (pred i)
  let eprob : Mat := fun i j => E (shifted i j)
  let esum : ℕ → ℚ := fun i => (Finset.range K).sum fun j => eprob i j
  let prob : Mat := fun i j => eprob i j / esum i
  let g : Mat := fun i j => prob i j - Y i j
  (-(msum n K fun i j => L (prob i j) * Y i j), g)

end Loss

namespace Loss2

/-- Translation of `Loss2.loss_l2` (classifier.py lines 512-532), in-place
steps made explicit.  Unweighted: `gpred = pred - Y`,
`f = np.dot(gpred.flat, gpred.flat)`, then `gpred *= 2.`.  Weighted:
`gpred = (pred - Y)**2`, `f = np.dot(gpred.sum(1), weight)`, then the
buffer is recomputed as `(pred - Y) * (2.*weight[:,np.newaxis])`. -/
def loss_l2 (n K : ℕ) (Y pred : Mat) (weight : Option (ℕ → ℚ)) : ℚ × Mat :=
  match weight with
  | none =>
      let g1 : Mat := fun i j => pred i j - Y i j
      (msum n K (fun i j => g1 i j * g1 i j), fun i j => g1 i j * 2)
  | some w =>
      let g1 : Mat := fun i j => pred i j - Y i j
      let g2 : Mat := fun i j => g1 i j ^ 2
      ((Finset.range n).sum fun i => ((Finset.range K).sum fun j => g2 i j) * w i,
       fun i j => g1 i j * (2 * w i))

/-- Translation of `Loss2.loss_hinge` (classifier.py lines 534-553):
the buffer is filled with `pred`, multiplied by `Y`, by `-1`, incremented
by `1`, and clipped to `[0, ∞)` (`np.clip(x, 0, np.inf) = max 0 x`);
then `f` is its (weighted) sum and the buffer is overwritten with the 0/1
indicator `(margin > 0)` times `Y` times `-1` (resp. `-weight`). -/
def loss_hinge (n K : ℕ) (Y pred : Mat) (weight : Option (ℕ → ℚ)) : ℚ × Mat :=
  let m : Mat := fun i j => max 0 (pred i j * Y i j * (-1) + 1)
  match weight with
  | none =>
      (msum n K m,
       fun i j => (if 0 < m i j then 1 else 0) * Y i j * (-1))
  | some w =>
      ((Finset.range n).sum fun i => w i * ((Finset.range K).sum fun j => m i j),
       fun i j => (if 0 < m i j then 1 else 0) * Y i j * (-(w i)))

/-- Translation of `Loss2.loss_squared_hinge` (classifier.py lines
555-573): same clipped margin buffer as the hinge loss; unweighted:
`f = np.dot(gpred.flat, gpred.flat)`, then `gpred *= Y; gpred *= -2`;
weighted: `gprednorm = inner1d(gpred, gpred)`,
`f = np.dot(gprednorm, weight)`, then `gpred *= Y;
gpred *= -2 * weight[:,np.newaxis]`. -/
def loss_squared_hinge (n K : ℕ) (Y pred : Mat) (weight : Option (ℕ → ℚ)) : ℚ × Mat :=
  let m : Mat := fun i j => max 0 (pred i j * Y i j * (-1) + 1)
  match weight with
  | none =>
      (msum n K (fun i j => m i j * m i j),
       fun i j => m i j * Y i j * (-2))
  | some w =>
      let gprednorm : ℕ → ℚ := fun i => (Finset.range K).sum fun j => m i j * m i j
      ((Finset.range n).sum fun i => gprednorm i * w i,
       fun i j => m i j * Y i j * (-2 * w i))

/-- Translation of `Loss2.loss_multiclass_logistic` (classifier.py lines
575-594): the scratch row in `cache` holds `prob = pred` shifted by the
row maximum, exponentiated and row-normalized; `gpred = prob - Y`;
`f = -np.dot(log(prob).flat, Y.flat)`.  The `weight` argument is accepted
but never used, exactly as in the source. -/
def loss_multiclass_logistic (E L : ℚ → ℚ) (n K : ℕ) (Y pred : Mat)
    (weight : Option (ℕ → ℚ)) : ℚ × Mat :=
  let shifted : Mat := fun i j => pred i j - rowMax K (pred i)
  let eprob : Mat := fun i j => E (shifted i j)
  let esum : ℕ → ℚ := fun i => (Finset.range K).sum fun j => eprob i j
  let prob : Mat := fun i j => eprob i j / esum i
  let g : Mat := fun i j => prob i j - Y i j
  (-(msum n K fun i j => L (prob i j) * Y i j), g)

/-- Translation of `Loss2.loss_multiclass_logistic_yvector` (classifier.py
lines 596-614): `Y` is a vector of class indices; the gradient buffer is
`prob` with `1` subtracted at position `(i, Y i)` for each row `i < n`
(`gpred[np.arange(len(Y)), Y] -= 1.`), and
`f = -log(prob)[np.arange(len(Y)), Y].sum()`.  The `weight` argument is
accepted but never used, exactly as in the source. -/
def loss_multiclass_logistic_yvector (E L : ℚ → ℚ) (n K : ℕ) (Y : ℕ → ℕ)
    (pred : Mat) (weight : Option (ℕ → ℚ)) : ℚ × Mat :=
  let shifted : Mat := fun i j => pred i j - rowMax K (pred i)
  let eprob : Mat := fun i j => E (shifted i j)
  let esum : ℕ → ℚ := fun i => (Finset.range K).sum fun j => eprob i j
  let prob : Mat := fun i j => eprob i j / esum i
  let g : Mat := fun i j => prob i j - (if i < n ∧ Y i = j then 1 else 0)
  (-((Finset.range n).sum fun i => L (prob i (Y i))), g)

end Loss2

section C1Helpers

/-- `Loss2.loss_l2` agrees with `Loss.loss_l2`. -/
lemma loss2_l2_eq (n K : ℕ) (Y pred : Mat) (weight : Option (ℕ → ℚ)) :
    Loss2.loss_l2 n K Y pred weight = Loss.loss_l2 n K Y pred weight := by
  cases weight with
  | none =>
      simp only [Loss2.loss_l2, Loss.loss_l2, Prod.mk.injEq]
      exact ⟨trivial, funext fun i => funext fun j => by ring⟩
  | some w =>
      simp only [Loss2.loss_l2, Loss.loss_l2, Prod.mk.injEq]
      exact ⟨trivial, funext fun i => funext fun j => by ring⟩

/-- The two ways of writing the clipped hinge margin agree. -/
lemma hinge_margin_eq (Y pred : Mat) (i j : ℕ) :
    max 0 (pred i j * Y i j * (-1) + 1) = max 0 (1 - Y i j * pred i j) := by
  have h : pred i j * Y i j * (-1) + 1 = 1 - Y i j * pred i j := by ring
  rw [h]

/-- `Loss2.loss_hinge` agrees with `Loss.loss_hinge`. -/
lemma loss2_hinge_eq (n K : ℕ) (Y pred : Mat) (weight : Option (ℕ → ℚ)) :
    Loss2.loss_hinge n K Y pred weight = Loss.loss_hinge n K Y pred weight := by
  cases weight with
  | none =>
      simp only [Loss2.loss_hinge, Loss.loss_hinge, Prod.mk.injEq, hinge_margin_eq]
      constructor
      · trivial
      · funext i j
        split
        · ring
        · ring
  | some w =>
      simp only [Loss2.loss_hinge, Loss.loss_hinge, Prod.mk.injEq, hinge_margin_eq]
      constructor
      · rw [Finset.sum_comm]
        exact Finset.sum_congr rfl fun i _ => by rw [Finset.mul_sum]
      · funext i j
        split
        · ring
        · ring

/-- `Loss2.loss_squared_hinge` agrees with `Loss.loss_squared_hinge`. -/
lemma loss2_squared_hinge_eq (n K : ℕ) (Y pred : Mat) (weight : Option (ℕ → ℚ)) :
    Loss2.loss_squared_hinge n K Y pred weight
      = Loss.loss_squared_hinge n K Y pred weight := by
  cases weight with
  | none =>
      simp only [Loss2.loss_squared_hinge, Loss.loss_squared_hinge, Prod.mk.injEq,
        hinge_margin_eq]
      exact ⟨trivial, funext fun i => funext fun j => by ring⟩
  | some w =>
      simp only [Loss2.loss_squared_hinge, Loss.loss_squared_hinge, Prod.mk.injEq,
        hinge_margin_eq, msum]
      constructor
      · refine Finset.sum_congr rfl fun i _ => ?_
        rw [Finset.sum_mul]
        exact Finset.sum_congr rfl fun j _ => by ring
      · exact funext fun i => funext fun j => by ring

end C1Helpers

/-- C1: for the losses implemented in both `Loss` (allocating) and `Loss2`
(buffer-reusing) — l2, hinge, squared hinge, multiclass logistic — and for
every label array `Y`, prediction array `pred` and optional weight vector,
the buffer-reusing variant returns the same loss value and the same final
gradient-buffer contents as the allocating variant. -/
theorem loss2_matches_loss (E L : ℚ → ℚ) (n K : ℕ) (Y pred : Mat)
    (weight : Option (ℕ → ℚ)) :
    Loss2.loss_l2 n K Y pred weight = Loss.loss_l2 n K Y pred weight
    ∧ Loss2.loss_hinge n K Y pred weight = Loss.loss_hinge n K Y pred weight
    ∧ Loss2.loss_squared_hinge n K Y pred weight
        = Loss.loss_squared_hinge n K Y pred weight
    ∧ Loss2.loss_multiclass_logistic E L n K Y pred weight
        = Loss.loss_multiclass_logistic E L n K Y pred weight :=
  ⟨loss2_l2_eq n K Y pred weight, loss2_hinge_eq n K Y pred weight,
   loss2_squared_hinge_eq n K Y pred weight, rfl⟩

/-!
## Parameter flattening (`SolverMC.flatten_params` / `unflatten_params`)
-/

/-- The Python type of a value passed to `SolverMC.flatten_params`. -/
inductive PyType where
  | ndarray
  | pylist
  | pytuple
  | pyother
  deriving DecidableEq

/-- A Python object as far as the `is` test in `flatten_params` is
concerned: either a type object (the result of `type(params)`), or the
builtin function object `np.array`. -/
inductive PyObj where
  | typeObj (t : PyType)
  | npArrayFun
  deriving DecidableEq

/-- The result shape of `SolverMC.flatten_params`. -/
inductive FlattenOutcome where
  | passthrough
  | hstacked
  deriving DecidableEq

/-- Translation of the type dispatch of `SolverMC.flatten_params`
(classifier.py lines 158-165):
`if type(params) is np.array: return params` — the right-hand side of the
`is` test is the builtin function `np.array`, not the `ndarray` type, so
the test compares a type object against a function object;
`elif type(params) is list or type(params) is tuple: return np.hstack(...)`;
`else: raise TypeError`. -/
def flatten_params_dispatch (t : PyType) : Except String FlattenOutcome :=
  if PyObj.typeObj t = PyObj.npArrayFun then Except.ok FlattenOutcome.passthrough
  else if t = PyType.pylist ∨ t = PyType.pytuple then Except.ok FlattenOutcome.hstacked
  else Except.error "TypeError"

/-- Row-major flattening (`W.flatten()` for the C-contiguous array `W` of
shape (dim, K)): rows 0 .. dim-1 concatenated in order. -/
def flattenW (K : ℕ) (W : Mat) : ℕ → List ℚ
  | 0 => []
  | d + 1 => flattenW K W d ++ (List.range K).map (W d)

/-- Translation of the tuple branch of `SolverMC.flatten_params` applied
to `(W, b)` (classifier.py line 163):
`np.hstack((p.flatten() for p in (W, b)))`, i.e. the row-major flattening
of `W` followed by `b`. -/
def flatten_params (dim K : ℕ) (W : Mat) (b : ℕ → ℚ) : List ℚ :=
  flattenW K W dim ++ (List.range K).map b

/-- Translation of `SolverMC.unflatten_params` (classifier.py lines
221-225) with `self._K = K`, `self._dim = dim`:
`w = wb[:K*dim].reshape(dim, K)` (so `w[i,j] = wb[i*K+j]`) and
`b = wb[K*dim:]`.  Out-of-range reads default to 0. -/
def unflatten_params (dim K : ℕ) (wb : List ℚ) : Mat × (ℕ → ℚ) :=
  (fun i j => wb.getD (i * K + j) 0, fun j => wb.getD (K * dim + j) 0)

lemma flattenW_length (K : ℕ) (W : Mat) (d : ℕ) :
    (flattenW K W d).length = d * K := by
  induction d with
  | zero => simp [flattenW]
  | succ d ih =>
      simp [flattenW, ih]
      ring

lemma flattenW_getD (K : ℕ) (W : Mat) (d i j : ℕ) (hi : i < d) (hj : j < K) :
    (flattenW K W d).getD (i * K + j) 0 = W i j := by
  induction d with
  | zero => omega
  | succ d ih =>
      rcases Nat.lt_succ_iff_lt_or_eq.mp hi with h | h
      · have hlen : i * K + j < (flattenW K W d).length := by
          rw [flattenW_length]
          calc i * K + j < i * K + K := by omega
            _ = (i + 1) * K := by ring
            _ ≤ d * K := Nat.mul_le_mul_right K (by omega)
        rw [flattenW, List.getD_append _ _ _ _ hlen]
        exact ih h
      · subst h
        have hlen : (flattenW K W i).length ≤ i * K + j := by
          rw [flattenW_length]; omega
        rw [flattenW, List.getD_append_right _ _ _ _ hlen, flattenW_length]
        have hidx : i * K + j - i * K = j := by omega
        rw [hidx, List.getD_eq_getElem?_getD]
        have hjlen : j < ((List.range K).map (W i)).length := by
          simp [hj]
        rw [List.getElem?_eq_getElem hjlen]
        simp

/-- C3: flattening `(W, b)` (with `W` of shape `[dim, K]` and `b` of
length `K`) produces a flat buffer of length `K*(dim+1)`, and
`unflatten_params` recovers exactly the same `W` and `b` at every
in-range index. -/
theorem unflatten_flatten_id (dim K : ℕ) (W : Mat) (b : ℕ → ℚ) :
    (flatten_params dim K W b).length = K * (dim + 1)
    ∧ (∀ i, i < dim → ∀ j, j < K →
        (unflatten_params dim K (flatten_params dim K W b)).1 i j = W i j)
    ∧ (∀ j, j < K →
        (unflatten_params dim K (flatten_params dim K W b)).2 j = b j) := by
  refine ⟨?_, ?_, ?_⟩
  · simp [flatten_params, flattenW_length]
    ring
  · intro i hi j hj
    have hlen : i * K + j < (flattenW K W dim).length := by
      rw [flattenW_length]
      calc i * K + j < i * K + K := by omega
        _ = (i + 1) * K := by ring
        _ ≤ dim * K := Nat.mul_le_mul_right K (by omega)
    simp only [unflatten_params, flatten_params]
    rw [List.getD_append _ _ _ _ hlen]
    exact flattenW_getD K W dim i j hi hj
  · intro j hj
    have hlen : (flattenW K W dim).length ≤ K * dim + j := by
      rw [flattenW_length, Nat.mul_comm dim K]
      omega
    simp only [unflatten_params, flatten_params]
    rw [List.getD_append_right _ _ _ _ hlen, flattenW_length]
    have hidx : K * dim + j - dim * K = j := by
      rw [Nat.mul_comm K dim]
      omega
    rw [hidx, List.getD_eq_getElem?_getD]
    have hjlen : j < ((List.range K).map b).length := by simp [hj]
    rw [List.getElem?_eq_getElem hjlen]
    simp

/-- C3 witness: concrete instance at `dim = 2`, `K = 3`. -/
theorem unflatten_flatten_id_witness :
    (flatten_params 2 3 (fun i j => (i * 3 + j : ℚ)) (fun j => (j : ℚ) + 100)).length
      = 3 * (2 + 1)
    ∧ (unflatten_params 2 3
        (flatten_params 2 3 (fun i j => (i * 3 + j : ℚ)) (fun j => (j : ℚ) + 100))).1 1 2
      = (fun i j => (i * 3 + j : ℚ)) 1 2
    ∧ (unflatten_params 2 3
        (flatten_params 2 3 (fun i j => (i * 3 + j : ℚ)) (fun j => (j : ℚ) + 100))).2 2
      = (fun j => (j : ℚ) + 100) 2 :=
  ⟨(unflatten_flatten_id 2 3 _ _).1,
   (unflatten_flatten_id 2 3 _ _).2.1 1 (by omega) 2 (by omega),
   (unflatten_flatten_id 2 3 _ _).2.2 2 (by omega)⟩

/-- C9: the intended ndarray pass-through branch of
`SolverMC.flatten_params` is dead: `type(params) is np.array` is false for
every input (a type object is never the function object `np.array`), so
every input whose type is not `list` or `tuple` — in particular an
ndarray — raises `TypeError`, and no input is ever returned unchanged. -/
theorem flatten_params_rejects_ndarray (t : PyType)
    (hl : t ≠ PyType.pylist) (ht : t ≠ PyType.pytuple) :
    flatten_params_dispatch t = Except.error "TypeError"
    ∧ flatten_params_dispatch PyType.ndarray = Except.error "TypeError"
    ∧ ∀ u : PyType, flatten_params_dispatch u ≠ Except.ok FlattenOutcome.passthrough := by
  refine ⟨?_, rfl, ?_⟩
  · cases t <;> simp_all [flatten_params_dispatch]
  · intro u
    cases u <;> simp [flatten_params_dispatch]

/-- C9 witness: instance at the ndarray type. -/
theorem flatten_params_rejects_ndarray_witness :
    flatten_params_dispatch PyType.ndarray = Except.error "TypeError" :=
  (flatten_params_rejects_ndarray PyType.ndarray (by simp) (by simp)).1

/-!
## `SolverMC.presolve`: determination of the number of classes `K`
-/

/-- C4: for `Y` with entries in `{-1, 1}` and `pred` of the same shape,
the unweighted hinge loss returns `f = Σ max(0, 1 - Y*pred)`, and its
gradient entry is `0` wherever the margin is `≤ 0` and `-Y` wherever the
margin is `> 0`. -/
theorem hinge_loss_spec (n K : ℕ) (Y pred : Mat)
    (hY : ∀ i j, Y i j = -1 ∨ Y i j = 1) :
    (Loss.loss_hinge n K Y pred none).1
      = msum n K (fun i j => max 0 (1 - Y i j * pred i j))
    ∧ ∀ i j,
        (max 0 (1 - Y i j * pred i j) ≤ 0 →
          (Loss.loss_hinge n K Y pred none).2 i j = 0)
        ∧ (0 < max 0 (1 - Y i j * pred i j) →
          (Loss.loss_hinge n K Y pred none).2 i j = -Y i j) := by
  constructor
  · rfl
  · intro i j
    constructor
    · intro h
      simp only [Loss.loss_hinge]
      rw [if_neg (not_lt.mpr h)]
      ring
    · intro h
      simp only [Loss.loss_hinge]
      rw [if_pos h]
      ring

/-- C4 witness: concrete instance with `Y ≡ 1`, `pred ≡ 0`, where the
margin is `1 > 0` and the gradient is `-Y = -1`. -/
theorem hinge_loss_spec_witness :
    (∀ i j : ℕ, (fun _ _ => (1 : ℚ)) i j = -1 ∨ (fun _ _ => (1 : ℚ)) i j = 1)
    ∧ (Loss.loss_hinge 1 1 (fun _ _ => 1) (fun _ _ => 0) none).1
        = msum 1 1 (fun i j =>
            max 0 (1 - (fun _ _ => (1 : ℚ)) i j * (fun _ _ => (0 : ℚ)) i j))
    ∧ (Loss.loss_hinge 1 1 (fun _ _ => 1) (fun _ _ => 0) none).2 0 0
        = -(fun _ _ => (1 : ℚ)) 0 0 :=
  ⟨fun _ _ => Or.inr rfl,
   (hinge_loss_spec 1 1 _ _ (fun _ _ => Or.inr rfl)).1,
   ((hinge_loss_spec 1 1 (fun _ _ => 1) (fun _ _ => 0)
      (fun _ _ => Or.inr rfl)).2 0 0).2 (by norm_num)⟩

/-- `np.sign` on exact rationals. -/
def np_sign (x : ℚ) : ℚ := if 0 < x then 1 else if x < 0 then -1 else 0

/-- Translation of `Reg.reg_l1` (classifier.py lines 635-643) for a weight
matrix of shape `[dim, K]`: `g = np.sign(w); g[g == 0] = 0.5;
return np.abs(w).sum(), g`. -/
def reg_l1 (dim K : ℕ) (w : Mat) : ℚ × Mat :=
  let g0 : Mat := fun i j => np_sign (w i j)
  let g : Mat := fun i j => if g0 i j = 0 then 1 / 2 else g0 i j
  (msum dim K (fun i j => |w i j|), g)

/-- C6: `Reg.reg_l1` returns the sum of absolute values of the entries of
`W`, and a gradient equal to `sign(W)` (`1` on positive entries, `-1` on
negative entries) except that entries where `W` is exactly `0` are set to
`0.5`, not `0`. -/
theorem reg_l1_spec (dim K : ℕ) (w : Mat) :
    (reg_l1 dim K w).1 = msum dim K (fun i j => |w i j|)
    ∧ ∀ i j,
        (w i j = 0 → (reg_l1 dim K w).2 i j = 1 / 2)
        ∧ (0 < w i j → (reg_l1 dim K w).2 i j = 1)
        ∧ (w i j < 0 → (reg_l1 dim K w).2 i j = -1) := by
  refine ⟨rfl, fun i j => ⟨?_, ?_, ?_⟩⟩
  · intro h
    simp [reg_l1, np_sign, h]
  · intro h
    have h1 : np_sign (w i j) = 1 := by
      unfold np_sign
      rw [if_pos h]
    simp [reg_l1, h1]
  · intro h
    have h1 : np_sign (w i j) = -1 := by
      unfold np_sign
      rw [if_neg (lt_asymm h), if_pos h]
    simp [reg_l1, h1]

/-- C6 witness: the three gradient conventions at `W = 0`, `W = 5`,
`W = -3`. -/
theorem reg_l1_spec_witness :
    (reg_l1 1 1 (fun _ _ => 0)).2 0 0 = 1 / 2
    ∧ (reg_l1 1 1 (fun _ _ => 5)).2 0 0 = 1
    ∧ (reg_l1 1 1 (fun _ _ => -3)).2 0 0 = -1 :=
  ⟨((reg_l1_spec 1 1 _).2 0 0).1 rfl,
   ((reg_l1_spec 1 1 _).2 0 0).2.1 (by norm_num),
   ((reg_l1_spec 1 1 _).2 0 0).2.2 (by norm_num)⟩

lemma foldl_max_add (row : ℕ → ℚ) (c : ℚ) (l : List ℕ) (init : ℚ) :
    l.foldl (fun m j => max m (row j + c)) (init + c)
      = l.foldl (fun m j => max m (row j)) init + c := by
  induction l generalizing init with
  | nil => rfl
  | cons a l ih =>
      simp only [List.foldl]
      rw [max_add_add_right]
      exact ih (max init (row a))

/-- Adding a constant to every entry of a row shifts its maximum by that
constant. -/
lemma rowMax_add (K : ℕ) (row : ℕ → ℚ) (c : ℚ) :
    rowMax K (fun j => row j + c) = rowMax K row + c := by
  unfold rowMax
  exact foldl_max_add row c (List.range K) (row 0)

/-- C7: the multiclass logistic loss value is invariant under adding a
constant `c` to every entry of `pred`: the per-row max shift cancels the
constant before exponentiation, so the computed loss is exactly equal. -/
theorem mclog_shift_invariant (E L : ℚ → ℚ) (n K : ℕ) (Y pred : Mat)
    (weight : Option (ℕ → ℚ)) (c : ℚ) :
    (Loss.loss_multiclass_logistic E L n K Y (fun i j => pred i j + c) weight).1
      = (Loss.loss_multiclass_logistic E L n K Y pred weight).1 := by
  simp only [Loss.loss_multiclass_logistic, rowMax_add, add_sub_add_right_eq_sub]

/-- C10: the multiclass logistic losses (allocating, buffer-reusing, and
index-vector) ignore the per-example weight argument entirely: any two
weight arguments give the same `(f, g)`. -/
theorem mclog_ignores_weight (E L : ℚ → ℚ) (n K : ℕ) (Y pred : Mat)
    (Yv : ℕ → ℕ) (w1 w2 : Option (ℕ → ℚ)) :
    Loss.loss_multiclass_logistic E L n K Y pred w1
        = Loss.loss_multiclass_logistic E L n K Y pred w2
    ∧ Loss2.loss_multiclass_logistic E L n K Y pred w1
        = Loss2.loss_multiclass_logistic E L n K Y pred w2
    ∧ Loss2.loss_multiclass_logistic_yvector E L n K Yv pred w1
        = Loss2.loss_multiclass_logistic_yvector E L n K Yv pred w2 :=
  ⟨rfl, rfl, rfl⟩

/-!
## `SolverMC.obj`: the distributed objective and the regularization term
-/

/-- One worker's shard: local example count, data matrix `X` of shape
`(n, dim)`, labels `Y` of shape `(n, K)`, optional per-example weights. -/
structure Shard where
  n : ℕ
  X : Mat
  Y : Mat
  weight : Option (ℕ → ℚ)

/-- The pre-regularization part of `SolverMC.obj` on one worker
(classifier.py lines 237-258): unflatten `wb` into `(w, b)`
(`w[d,k] = wb[d*K+k]`, `b[k] = wb[K*dim+k]`), compute
`pred = X·w + b`, call the loss, back-propagate
(`glocal[:K*dim] = (X.T · gpred).ravel()`,
`glocal[K*dim:] = gpred.sum(axis=0)`), and normalize the local loss value
and gradient by the global example count `num_data`.  The loss function is
an abstract parameter with the source's `(Y, pred, weight)` signature. -/
def SolverMC_obj_base (loss : Mat → Mat → Option (ℕ → ℚ) → ℚ × Mat)
    (numData : ℚ) (dim K : ℕ) (sh : Shard) (wb : ℕ → ℚ) : ℚ × (ℕ → ℚ) :=
  let w : Mat := fun d k => wb (d * K + k)
  let b : ℕ → ℚ := fun k => wb (K * dim + k)
  let pred : Mat := fun i j => ((Finset.range dim).sum fun d => sh.X i d * w d j) + b j
  let fg := loss sh.Y pred sh.weight
  let glocal : ℕ → ℚ := fun idx =>
    if idx < K * dim then
      (Finset.range sh.n).sum fun i => sh.X i (idx / K) * fg.2 i (idx % K)
    else
      (Finset.range sh.n).sum fun i => fg.2 i (idx - K * dim)
  (fg.1 / numData, fun idx => glocal idx / numData)

/-- Translation of `SolverMC.obj` up to (and excluding) the cross-worker
reduction (classifier.py lines 232-265): the local contribution of one
worker.  Only when `mpi.is_root()` is true (`isRoot`) are
`gamma * freg` added to the local loss value and
`gamma * greg.ravel()` added to the first `K*dim` entries of the local
gradient (classifier.py lines 262-265). -/
def SolverMC_obj_local (loss : Mat → Mat → Option (ℕ → ℚ) → ℚ × Mat)
    (reg : Mat → ℚ × Mat) (gamma numData : ℚ) (isRoot : Bool)
    (dim K : ℕ) (sh : Shard) (wb : ℕ → ℚ) : ℚ × (ℕ → ℚ) :=
  let base := SolverMC_obj_base loss numData dim K sh wb
  if isRoot then
    let fg := reg (fun d k => wb (d * K + k))
    (base.1 + gamma * fg.1,
     fun idx =>
       if idx < K * dim then base.2 idx + gamma * fg.2 (idx / K) (idx % K)
       else base.2 idx)
  else base

/-- The globally reduced objective value
`f = mpi.COMM.allreduce(flocal)` (classifier.py line 268): the sum of the
per-worker local contributions, over a list of workers each tagged with
its `mpi.is_root()` flag. -/
def SolverMC_obj_global_f (loss : Mat → Mat → Option (ℕ → ℚ) → ℚ × Mat)
    (reg : Mat → ℚ × Mat) (gamma numData : ℚ) (dim K : ℕ) (wb : ℕ → ℚ)
    (workers : List (Bool × Shard)) : ℚ :=
  (workers.map fun p =>
    (SolverMC_obj_local loss reg gamma numData p.1 dim K p.2 wb).1).sum

lemma obj_global_f_count (loss : Mat → Mat → Option (ℕ → ℚ) → ℚ × Mat)
    (reg : Mat → ℚ × Mat) (gamma numData : ℚ) (dim K : ℕ) (wb : ℕ → ℚ)
    (workers : List (Bool × Shard)) :
    SolverMC_obj_global_f loss reg gamma numData dim K wb workers
      = (workers.map fun p =>
          (SolverMC_obj_base loss numData dim K p.2 wb).1).sum
        + (workers.countP (fun p => p.1) : ℚ)
          * (gamma * (reg (fun d k => wb (d * K + k))).1) := by
  induction workers with
  | nil => simp [SolverMC_obj_global_f]
  | cons p ps ih =>
      rcases p with ⟨flag, sh⟩
      simp only [SolverMC_obj_global_f, List.map_cons, List.sum_cons,
        List.countP_cons] at ih ⊢
      rw [ih]
      cases flag with
      | false =>
          have hf : SolverMC_obj_local loss reg gamma numData false dim K sh wb
              = SolverMC_obj_base loss numData dim K sh wb := rfl
          rw [hf]
          simp
          ring
      | true =>
          have hf : (SolverMC_obj_local loss reg gamma numData true dim K sh wb).1
              = (SolverMC_obj_base loss numData dim K sh wb).1
                + gamma * (reg fun d k => wb (d * K + k)).1 := rfl
          rw [hf]
          simp
          ring

/-- C2: in `SolverMC.obj` the regularization term is added to the local
objective and to the first `K*dim` local gradient entries exactly when the
worker is the root; a non-root worker's local contribution is exactly the
unregularized base value, and when exactly one worker is the root the
globally sum-reduced objective contains `gamma * Reg(w)` exactly once. -/
theorem obj_reg_applied_once (loss : Mat → Mat → Option (ℕ → ℚ) → ℚ × Mat)
    (reg : Mat → ℚ × Mat) (gamma numData : ℚ) (dim K : ℕ) (sh : Shard)
    (wb : ℕ → ℚ) (workers : List (Bool × Shard))
    (hroot : workers.countP (fun p => p.1) = 1) :
    SolverMC_obj_local loss reg gamma numData false dim K sh wb
        = SolverMC_obj_base loss numData dim K sh wb
    ∧ (SolverMC_obj_local loss reg gamma numData true dim K sh wb).1
        = (SolverMC_obj_base loss numData dim K sh wb).1
          + gamma * (reg (fun d k => wb (d * K + k))).1
    ∧ (∀ idx, idx < K * dim →
        (SolverMC_obj_local loss reg gamma numData true dim K sh wb).2 idx
          = (SolverMC_obj_base loss numData dim K sh wb).2 idx
            + gamma * (reg (fun d k => wb (d * K + k))).2 (idx / K) (idx % K))
    ∧ (∀ idx, ¬ idx < K * dim →
        (SolverMC_obj_local loss reg gamma numData true dim K sh wb).2 idx
          = (SolverMC_obj_base loss numData dim K sh wb).2 idx)
    ∧ SolverMC_obj_global_f loss reg gamma numData dim K wb workers
        = (workers.map fun p =>
            (SolverMC_obj_base loss numData dim K p.2 wb).1).sum
          + gamma * (reg (fun d k => wb (d * K + k))).1 := by
  refine ⟨rfl, rfl, ?_, ?_, ?_⟩
  · intro idx h
    simp only [SolverMC_obj_local, if_true]
    rw [if_pos h]
  · intro idx h
    simp only [SolverMC_obj_local, if_true]
    rw [if_neg h]
  · rw [obj_global_f_count, hroot]
    push_cast
    ring

/-- C2 witness: two workers (one root, one not) on a tiny concrete
problem. -/
theorem obj_reg_applied_once_witness :
    List.countP (fun p => p.1)
        [((true, Shard.mk 1 (fun _ _ => 1) (fun _ _ => 1) none) : Bool × Shard),
         (false, Shard.mk 1 (fun _ _ => 2) (fun _ _ => 1) none)] = 1
    ∧ SolverMC_obj_global_f (fun _ _ _ => (1, fun _ _ => 1)) (fun _ => (1, fun _ _ => 1))
        2 2 1 1 (fun _ => 1)
        [(true, Shard.mk 1 (fun _ _ => 1) (fun _ _ => 1) none),
         (false, Shard.mk 1 (fun _ _ => 2) (fun _ _ => 1) none)]
      = (([(true, Shard.mk 1 (fun _ _ => 1) (fun _ _ => 1) none),
           (false, Shard.mk 1 (fun _ _ => 2) (fun _ _ => 1) none)] :
            List (Bool × Shard)).map fun p =>
          (SolverMC_obj_base (fun _ _ _ => (1, fun _ _ => 1)) 2 1 1 p.2 (fun _ => 1)).1).sum
        + 2 * 1 :=
  ⟨by decide,
   (obj_reg_applied_once (fun _ _ _ => (1, fun _ _ => 1)) (fun _ => (1, fun _ _ => 1))
     2 2 1 1 (Shard.mk 1 (fun _ _ => 1) (fun _ _ => 1) none) (fun _ => 1)
     [(true, Shard.mk 1 (fun _ _ => 1) (fun _ _ => 1) none),
      (false, Shard.mk 1 (fun _ _ => 2) (fun _ _ => 1) none)]
     (by decide)).2.2.2.2⟩

/-!
## The Adagrad branch of `SolverStochastic.solve`
-/

/-- `np.finfo(np.float64).eps = 2⁻⁵²`. -/
def machineEps : ℚ := 1 / 2 ^ 52

/-- Initialization of the accumulated-gradient vector at iteration 0
(classifier.py lines 353-356):
`accum_grad = np.ones_like(param_flat) * (eta ** 2) + np.finfo(np.float64).eps`. -/
def adagradInit (eta : ℚ) : ℕ → ℚ := fun _ => eta ^ 2 + machineEps

/-- One Adagrad iteration (classifier.py lines 373-377), with the gradient
evaluation `SolverMC.obj(param_flat, solver_basic)` abstracted as `grad`
and `np.sqrt` abstracted as `sq`:
`accum_grad += g * g; param_flat -= g / np.sqrt(accum_grad) * base_lr`
(the parameter update divides by the square root of the already-updated
accumulator).  State is `(param_flat, accum_grad)`. -/
def adagradStep (grad : (ℕ → ℚ) → ℕ → ℚ) (sq : ℚ → ℚ) (base_lr : ℚ)
    (s : (ℕ → ℚ) × (ℕ → ℚ)) : (ℕ → ℚ) × (ℕ → ℚ) :=
  let g := grad s.1
  let accum : ℕ → ℚ := fun i => s.2 i + g i * g i
  (fun i => s.1 i - g i / sq (accum i) * base_lr, accum)

/-- The Adagrad branch of `SolverStochastic.solve` started from iteration
0: state after `t` iterations. -/
def adagradIter (grad : (ℕ → ℚ) → ℕ → ℚ) (sq : ℚ → ℚ) (base_lr eta : ℚ)
    (param0 : ℕ → ℚ) : ℕ → (ℕ → ℚ) × (ℕ → ℚ)
  | 0 => (param0, adagradInit eta)
  | t + 1 => adagradStep grad sq base_lr (adagradIter grad sq base_lr eta param0 t)

/-- C5: in the Adagrad branch started from iteration 0, the accumulated
gradient starts at `eta² + machine epsilon` in every component, each
iteration adds the square of the current gradient componentwise and then
updates `param -= g / sqrt(accum_grad) * base_lr`; consequently every
component of the accumulator is monotonically non-decreasing across
iterations. -/
theorem adagrad_accum_monotone (grad : (ℕ → ℚ) → ℕ → ℚ) (sq : ℚ → ℚ)
    (base_lr eta : ℚ) (param0 : ℕ → ℚ) :
    (∀ i, (adagradIter grad sq base_lr eta param0 0).2 i = eta ^ 2 + machineEps)
    ∧ (∀ t i, (adagradIter grad sq base_lr eta param0 (t + 1)).2 i
        = (adagradIter grad sq base_lr eta param0 t).2 i
          + grad (adagradIter grad sq base_lr eta param0 t).1 i
            * grad (adagradIter grad sq base_lr eta param0 t).1 i)
    ∧ (∀ t i, (adagradIter grad sq base_lr eta param0 (t + 1)).1 i
        = (adagradIter grad sq base_lr eta param0 t).1 i
          - grad (adagradIter grad sq base_lr eta param0 t).1 i
            / sq ((adagradIter grad sq base_lr eta param0 (t + 1)).2 i) * base_lr)
    ∧ (∀ s t, s ≤ t → ∀ i,
        (adagradIter grad sq base_lr eta param0 s).2 i
          ≤ (adagradIter grad sq base_lr eta param0 t).2 i) := by
  refine ⟨fun i => rfl, fun t i => rfl, fun t i => rfl, ?_⟩
  intro s t h i
  induction t, h using Nat.le_induction with
  | base => exact le_refl _
  | succ t ht ih =>
      refine le_trans ih ?_
      simp only [adagradIter, adagradStep]
      exact le_add_of_nonneg_right (mul_self_nonneg _)

/-- C5 witness: concrete monotonicity instance from iteration 0 to 1. -/
theorem adagrad_accum_monotone_witness :
    (0 : ℕ) ≤ 1
    ∧ (adagradIter (fun p => p) (fun x => x) 1 0 (fun _ => 1) 0).2 0
        ≤ (adagradIter (fun p => p) (fun x => x) 1 0 (fun _ => 1) 1).2 0 :=
  ⟨Nat.zero_le 1,
   (adagrad_accum_monotone (fun p => p) (fun x => x) 1 0 (fun _ => 1)).2.2.2
     0 1 (Nat.zero_le 1) 0⟩
